import Mathlib

/-!
Shallow embedding of `hockey_scraper/nhl/json_schedule.py` (NHL JSON schedule
scraper) and proofs about its claimed properties.

Modelling conventions:

* Calendar dates are modelled as `Int` day numbers on a linear timeline: the
  code parses `"%Y-%m-%d"` strings with `strptime` and only ever subtracts
  them, adds `timedelta(days=k)`, and reformats; `strptime`/`strftime` is a
  bijection between valid date strings and day numbers, so date strings are
  identified with their day numbers.  `Shared.toDays` is the (abstract) day
  number of a `(year, month, day)` triple, used where the code builds a date
  string from numeric components.
* Python strings that are only ever stored or compared are `List Char`
  (`PyStr`); game identifiers, which the code sorts lexicographically and
  slices digit-wise, are decimal digit strings `List Nat` (`DecStr`), most
  significant digit first.  Python compares strings by code point, which on
  decimal digit characters coincides with comparing the digit values, so
  lexicographic order on `DecStr` models Python string order on the numeric
  identifiers the module works with.
* External collaborators from `hockey_scraper.utils.shared` (`get_file`,
  `get_team`, `get_season`) and the ambient clock (`datetime.today()`) are
  fields of a `Shared` record of parameters; the module's functions are
  deterministic functions of that record and their arguments.
* Fallible Python operations (missing dict keys, `int('')`, indexing an
  empty list) are modelled with `Except PyErr`; `PyErr` carries the same
  information the raised exception would (the missing key's name for
  `KeyError`, nothing for `ValueError` / `IndexError`).
-/

instance {ε α : Type} [DecidableEq ε] [DecidableEq α] :
    DecidableEq (Except ε α) := fun a b =>
  match a, b with
  | .ok a, .ok b =>
    if h : a = b then .isTrue (congrArg Except.ok h)
    else .isFalse (fun hc => h (Except.ok.inj hc))
  | .ok _, .error _ => .isFalse (fun hc => Except.noConfusion hc)
  | .error _, .ok _ => .isFalse (fun hc => Except.noConfusion hc)
  | .error e, .error f =>
    if h : e = f then .isTrue (congrArg Except.error h)
    else .isFalse (fun hc => h (Except.error.inj hc))

/-- A Python string that is only stored or compared (team names, states,
timestamps). -/
abbrev PyStr := List Char

/-- A numeric Python string: its decimal digits, most significant first. -/
abbrev DecStr := List Nat

/-- A `(year, month, day)` triple as produced by `datetime.today()` or by
joining numeric components into a `"%Y-%m-%d"` string. -/
structure CalDate where
  year : Nat
  month : Nat
  day : Nat
deriving DecidableEq, Repr

/-- Python exceptions observable from this module.  `keyError` carries the
missing key's name, as Python's `KeyError` does. -/
inductive PyErr where
  | keyError : String → PyErr
  | valueError : PyErr
  | indexError : PyErr
deriving DecidableEq, Repr

/-- `game["status"]` subobject: `detailedState` and `abstractGameState`. -/
structure GameStatus where
  detailedState : PyStr
  abstractGameState : PyStr
deriving DecidableEq, Repr

/-- One side of `game["teams"]`: `team.name` and the optional `score` key
(read with `.get`, hence `Option`). -/
structure TeamEntry where
  name : PyStr
  score : Option Int
deriving DecidableEq, Repr

/-- `game["teams"]` subobject. -/
structure GameTeams where
  home : TeamEntry
  away : TeamEntry
deriving DecidableEq, Repr

/-- One raw game entry of the upstream JSON.  The keys whose absence §4.3 of
the spec discusses (`status`, `teams`) are `Option`; `venue` holds the result
of `game["venue"].get("name")`; `gamePk` and `gameDate` are the identifier
and timestamp, always present in upstream data. -/
structure Game where
  gamePk : Nat
  gameDate : PyStr
  status : Option GameStatus
  venue : Option PyStr
  teams : Option GameTeams
deriving DecidableEq, Repr

/-- One `dates[i]` entry of the upstream JSON: a day (`date` as a day
number) and its games. -/
structure Day where
  date : Int
  games : List Game
deriving DecidableEq, Repr

/-- A parsed schedule response: the top-level object with its `dates`
array. -/
structure Response where
  dates : List Day
deriving DecidableEq, Repr

/-- The flat record `scrape_schedule` appends per qualifying game. -/
structure GameRecord where
  game_id : Nat
  date : Int
  start_time : PyStr
  venue : Option PyStr
  home_team : PyStr
  away_team : PyStr
  home_score : Option Int
  away_score : Option Int
  status : PyStr
deriving DecidableEq, Repr

/-- The module's external collaborators and ambient state:
`get_file` is `json.loads ∘ shared.get_file` for a schedule query keyed by
the chunk's start and end dates; `get_team` is `shared.get_team`;
`today` is `datetime.today()`'s calendar date; `current_season` is
`shared.get_season(datetime.strftime(datetime.today(), "%Y-%m-%d"))` as a
digit string; `toDays` is the day number of a calendar date (the `strptime`
bijection). -/
structure Shared where
  get_file : Int → Int → Response
  get_team : PyStr → PyStr
  today : CalDate
  current_season : DecStr
  toDays : CalDate → Int

/-- Little-endian decimal digits of `n`, with explicit fuel (`fuel ≥ n`
suffices, so using `n` itself as fuel makes this total and executable). -/
def natDigitsRev (fuel n : Nat) : List Nat :=
  match fuel with
  | 0 => []
  | f + 1 => if n = 0 then [] else n % 10 :: natDigitsRev f (n / 10)

/-- `str(n)` for a natural number, as a digit string (most significant digit
first); `str(0) = "0"`. -/
def pyDecDigits (n : Nat) : DecStr :=
  if n = 0 then [0] else (natDigitsRev n n).reverse

/-- `int(s)` for a nonempty decimal digit string (leading zeros allowed). -/
def fromDecDigits (ds : DecStr) : Nat :=
  ds.foldl (fun a d => a * 10 + d) 0

/-- `int(str(gamePk)[5:])`: drop the first five decimal digits of the raw
identifier and read the rest back as a number; slicing a string of at most
five characters leaves `''`, and `int('')` raises `ValueError`. -/
def decode_game_id (gamePk : Nat) : Except PyErr Nat :=
  match (pyDecDigits gamePk).drop 5 with
  | [] => .error .valueError
  | d :: ds => .ok (fromDecDigits (d :: ds))

/-- Python string `<=` restricted to decimal digit strings (code-point order,
which on digit characters is digit order; a proper prefix sorts first). -/
def lexLe : DecStr → DecStr → Bool
  | [], _ => true
  | _ :: _, [] => false
  | a :: as, b :: bs => a < b || (a == b && lexLe as bs)

/-- `get_schedule(date_from, date_to)`: fetch and parse one sub-range query
(the URL building, caching and JSON parsing live in the fetcher adapter,
modelled by `Shared.get_file`). -/
def get_schedule (w : Shared) (date_from date_to : Int) : Response :=
  w.get_file date_from date_to

/-- The pair `(f_chunk, t_chunk)` requested by iteration `i` of the loop in
`chunk_schedule_calls`: with `num_days = to_date - from_date + 1` and
`offset = 100 * i`, the chunk runs from `from_date + offset` to
`from_date + min(num_days - 1, offset + days_per_call - 1)`. -/
def chunk_pair (from_date to_date : Int) (i : Nat) : Int × Int :=
  (from_date + 100 * (i : Int),
   from_date + min (to_date - from_date + 1 - 1) (100 * (i : Int) + 99))

/-- The `(f_chunk, t_chunk)` pairs requested by `chunk_schedule_calls`:
`num_days = (to_date - from_date).days + 1`, and with `days_per_call = 100`
the loop `for offset in range(0, num_days, 100)` runs over the offsets
`100 * i` for `i < ⌈num_days / 100⌉` (no iterations when `num_days ≤ 0`). -/
def chunk_bounds (from_date to_date : Int) : List (Int × Int) :=
  (List.range (((to_date - from_date + 1).toNat + 99) / 100)).map
    (chunk_pair from_date to_date)

/-- `chunk_schedule_calls(from_date, to_date)`: one `get_schedule` call per
chunk, collecting each response's `dates` list. -/
def chunk_schedule_calls (w : Shared) (from_date to_date : Int) :
    List (List Day) :=
  (chunk_bounds from_date to_date).map
    (fun p => (get_schedule w p.1 p.2).dates)

/-- The record literal appended by `scrape_schedule` for a qualifying game
(`st` and `tms` are the contents of the game's `status` and `teams` keys).
`game["gameDate"][:-1]` is the timestamp minus its last character; uppercasing
is per-character ASCII uppercasing as applied by `.upper()` to the ASCII team
names; `strptime` of the trimmed timestamp is kept as the trimmed string,
since `strptime` with the fixed format `"%Y-%m-%dT%H:%M:%S"` is injective on
the strings the upstream delivers. -/
def mk_record (w : Shared) (day_date : Int) (game : Game)
    (st : GameStatus) (tms : GameTeams) : GameRecord :=
  { game_id := game.gamePk
    date := day_date
    start_time := game.gameDate.dropLast
    venue := game.venue
    home_team := w.get_team (tms.home.name.map Char.toUpper)
    away_team := w.get_team (tms.away.name.map Char.toUpper)
    home_score := tms.home.score
    away_score := tms.away.score
    status := st.abstractGameState }

/-- The body of `scrape_schedule`'s inner loop for one game: evaluate
`game['status']['detailedState'] == 'Final' or not_over` (the `status` access
happens before the `or`), decode the game id, apply the game-type filter, and
build the record (whose construction reads `teams`).  Returns the appended
record, `none` when a filter intentionally skips the game, or the Python
exception. -/
def process_game (w : Shared) (preseason not_over : Bool) (day_date : Int)
    (game : Game) : Except PyErr (Option GameRecord) :=
  match game.status with
  | none => .error (.keyError "status")
  | some st =>
    if st.detailedState = "Final".data ∨ not_over = true then
      match decode_game_id game.gamePk with
      | .error e => .error e
      | .ok game_id =>
        if (game_id ≥ 20000 ∨ preseason = true) ∧ game_id < 40000 then
          match game.teams with
          | none => .error (.keyError "teams")
          | some tms => .ok (some (mk_record w day_date game st tms))
        else .ok none
    else .ok none

/-- `for game in day['games']`, accumulating appended records in order. -/
def process_games (w : Shared) (preseason not_over : Bool) (day_date : Int) :
    List Game → Except PyErr (List GameRecord)
  | [] => .ok []
  | g :: gs =>
    match process_game w preseason not_over day_date g with
    | .error e => .error e
    | .ok r =>
      match process_games w preseason not_over day_date gs with
      | .error e => .error e
      | .ok rest => .ok (r.toList ++ rest)

/-- `for day in chunk`. -/
def process_days (w : Shared) (preseason not_over : Bool) :
    List Day → Except PyErr (List GameRecord)
  | [] => .ok []
  | d :: ds =>
    match process_games w preseason not_over d.date d.games with
    | .error e => .error e
    | .ok rs =>
      match process_days w preseason not_over ds with
      | .error e => .error e
      | .ok rest => .ok (rs ++ rest)

/-- `for chunk in schedule_json`. -/
def process_chunks (w : Shared) (preseason not_over : Bool) :
    List (List Day) → Except PyErr (List GameRecord)
  | [] => .ok []
  | c :: cs =>
    match process_days w preseason not_over c with
    | .error e => .error e
    | .ok rs =>
      match process_chunks w preseason not_over cs with
      | .error e => .error e
      | .ok rest => .ok (rs ++ rest)

/-- `scrape_schedule(date_from, date_to, preseason, not_over)`. -/
def scrape_schedule (w : Shared) (date_from date_to : Int)
    (preseason not_over : Bool) : Except PyErr (List GameRecord) :=
  process_chunks w preseason not_over
    (chunk_schedule_calls w date_from date_to)

/-- `get_dates(games)`.  The argument models the list after the source's
`games = list(map(str, games))`: the module is used with numeric identifiers
(`[2016020001]`-style ints or the same as strings), so every element is a
decimal digit string.  The source then sorts in place, reads
`games[0][:4]` (empty list → `IndexError`), builds
`date_from = '-'.join([games[0][:4], '9', '1'])`, chooses `date_to` as today
when `games[-1][:4]` equals the current season and as
`str(int(games[-1][:4]) + 1) + '-7-1'` otherwise (`int('')` raising
`ValueError`), runs `scrape_schedule(date_from, date_to, preseason=True,
not_over=True)`, and keeps exactly the records with
`str(game['game_id']) in games`.  `strptime` failures on the built
`date_from` string (possible only when `games[0][:4]` is empty) surface as
the same `ValueError` value; dates being day numbers here, that check sits
where the date string is built rather than inside `chunk_schedule_calls`. -/
def get_dates (w : Shared) (games0 : List DecStr) :
    Except PyErr (List GameRecord) :=
  match games0.mergeSort lexLe with
  | [] => .error .indexError
  | g0 :: rest =>
    let games := g0 :: rest
    let year_from := g0.take 4
    let year_to := (games.getLast (List.cons_ne_nil g0 rest)).take 4
    let run := fun (date_to : Int) =>
      if year_from = [] then .error .valueError
      else
        match scrape_schedule w (w.toDays ⟨fromDecDigits year_from, 9, 1⟩)
            date_to true true with
        | .error e => .error e
        | .ok schedule =>
          .ok (schedule.filter
            (fun g => games.contains (pyDecDigits g.game_id)))
    if year_to = w.current_season then
      run (w.toDays w.today)
    else if year_to = [] then .error .valueError
    else run (w.toDays ⟨fromDecDigits year_to + 1, 7, 1⟩)


/-- The list `[a, a+1, ..., a+n-1]`. -/
def intRange (a : Int) : Nat → List Int
  | 0 => []
  | n + 1 => a :: intRange (a + 1) n

/-- The inclusive day span of a chunk, listed in ascending order. -/
def daySpan (p : Int × Int) : List Int :=
  intRange p.1 (p.2 + 1 - p.1).toNat

/-! ### Concrete data for instantiating the theorems -/

def demoStatusFinal : GameStatus := ⟨"Final".data, "Final".data⟩

def demoTeams : GameTeams :=
  ⟨⟨"Devils".data, some 2⟩, ⟨"Rangers".data, some 1⟩⟩

def demoGame : Game :=
  { gamePk := 2016020001
    gameDate := "2016-10-13T23:00:00Z".data
    status := some demoStatusFinal
    venue := some "Prudential Center".data
    teams := some demoTeams }

def demoDay : Day := ⟨100, [demoGame]⟩

def demoShared : Shared :=
  { get_file := fun _ _ => ⟨[demoDay]⟩
    get_team := id
    today := ⟨2017, 1, 1⟩
    current_season := [2, 0, 1, 6]
    toDays := fun _ => 0 }

def demoSharedLater : Shared :=
  { demoShared with
    today := ⟨2024, 6, 5⟩
    current_season := [2, 0, 2, 3]
    toDays := fun _ => 42 }

def demoRec : GameRecord :=
  mk_record demoShared 100 demoGame demoStatusFinal demoTeams

def demoGameNoTeamsA : Game :=
  { gamePk := 2016020001
    gameDate := "2016-10-13T23:00:00Z".data
    status := some demoStatusFinal
    venue := none
    teams := none }

def demoGameNoTeamsB : Game := { demoGameNoTeamsA with gamePk := 2016020777 }

def demoSharedNoTeamsA : Shared :=
  { demoShared with get_file := fun _ _ => ⟨[⟨100, [demoGameNoTeamsA]⟩]⟩ }

def demoSharedNoTeamsB : Shared :=
  { demoShared with get_file := fun _ _ => ⟨[⟨100, [demoGameNoTeamsB]⟩]⟩ }

def demoId : DecStr := [2, 0, 1, 6, 0, 2, 0, 0, 0, 1]

/-! ### Date Chunker lemmas -/

lemma intRange_add (m n : Nat) :
    ∀ a : Int, intRange a (m + n) = intRange a m ++ intRange (a + (m : Int)) n := by
  induction m with
  | zero =>
    intro a
    simp [intRange]
  | succ m ih =>
    intro a
    have h1 : m + 1 + n = (m + n) + 1 := by omega
    rw [h1]
    simp only [intRange]
    rw [ih (a + 1)]
    have hc : a + 1 + (m : Int) = a + ((m + 1 : Nat) : Int) := by push_cast; ring
    rw [hc]
    simp [List.cons_append]

lemma daySpan_append (a c b : Int) (h1 : a ≤ c + 1) (h2 : c ≤ b) :
    daySpan (a, c) ++ daySpan (c + 1, b) = daySpan (a, b) := by
  simp only [daySpan]
  have l12 : (b + 1 - a).toNat = (c + 1 - a).toNat + (b + 1 - (c + 1)).toNat := by
    omega
  rw [l12, intRange_add]
  have hc : a + (((c + 1 - a).toNat : Nat) : Int) = c + 1 := by omega
  rw [hc]

lemma flatMap_daySpan (bs : List (Int × Int)) :
    ∀ p : Int × Int, (∀ q ∈ p :: bs, q.1 ≤ q.2) →
      List.Chain' (fun x y => x.2 + 1 = y.1) (p :: bs) →
      (p :: bs).flatMap daySpan =
          daySpan (p.1, ((p :: bs).getLast (List.cons_ne_nil p bs)).2) ∧
        p.1 ≤ ((p :: bs).getLast (List.cons_ne_nil p bs)).2 + 1 := by
  induction bs with
  | nil =>
    intro p hw _
    have hp := hw p (List.mem_cons_self p [])
    refine ⟨by simp [List.flatMap_cons], by simpa using by omega⟩
  | cons q bs ih =>
    intro p hw hc
    rw [List.chain'_cons] at hc
    obtain ⟨hpq, hc2⟩ := hc
    obtain ⟨ihEq, ihLe⟩ :=
      ih q (fun r hr => hw r (List.mem_cons_of_mem p hr)) hc2
    have hgl : (p :: q :: bs).getLast (List.cons_ne_nil p (q :: bs)) =
        (q :: bs).getLast (List.cons_ne_nil q bs) :=
      List.getLast_cons (List.cons_ne_nil q bs)
    have hp := hw p (List.mem_cons_self p (q :: bs))
    constructor
    · rw [hgl, List.flatMap_cons, ihEq]
      have hq1 : q.1 = p.2 + 1 := hpq.symm
      rw [hq1] at ihLe
      rw [hq1]
      exact daySpan_append p.1 p.2 _ (by omega) (by omega)
    · rw [hgl]
      omega

lemma chunk_bounds_length (f t : Int) :
    (chunk_bounds f t).length = ((t - f + 1).toNat + 99) / 100 := by
  rw [chunk_bounds, List.length_map, List.length_range]

lemma chunk_bounds_getElem? (f t : Int) (i : Nat)
    (h : i < ((t - f + 1).toNat + 99) / 100) :
    (chunk_bounds f t)[i]? = some (chunk_pair f t i) := by
  rw [chunk_bounds, List.getElem?_map, List.getElem?_range h]
  rfl

lemma chunk_bounds_empty (f t : Int) (h : t < f) : chunk_bounds f t = [] := by
  have h0 : ((t - f + 1).toNat + 99) / 100 = 0 := by omega
  rw [chunk_bounds, h0, List.range_zero, List.map_nil]

lemma chunk_bounds_ne_nil (f t : Int) (h : f ≤ t) : chunk_bounds f t ≠ [] := by
  intro hnil
  have hlen := chunk_bounds_length f t
  rw [hnil, List.length_nil] at hlen
  omega

lemma chunk_bounds_head (f t : Int) (h : f ≤ t) :
    (chunk_bounds f t).head?.map Prod.fst = some f := by
  rw [List.head?_eq_getElem?, chunk_bounds_getElem? f t 0 (by omega)]
  simp [chunk_pair]

lemma chunk_pair_fst (f t : Int) (i : Nat) :
    (chunk_pair f t i).1 = f + 100 * (i : Int) := rfl

lemma chunk_pair_snd (f t : Int) (i : Nat) :
    (chunk_pair f t i).2 =
      f + min (t - f + 1 - 1) (100 * (i : Int) + 99) := rfl

lemma chunk_bounds_last (f t : Int) (h : f ≤ t) :
    (chunk_bounds f t).getLast?.map Prod.snd = some t := by
  rw [List.getLast?_eq_getElem?, chunk_bounds_length,
    chunk_bounds_getElem? f t (((t - f + 1).toNat + 99) / 100 - 1) (by omega)]
  show some (chunk_pair f t (((t - f + 1).toNat + 99) / 100 - 1)).2 = some t
  rw [chunk_pair_snd]
  have hdm := Nat.div_add_mod ((t - f + 1).toNat + 99) 100
  have hmod : ((t - f + 1).toNat + 99) % 100 < 100 :=
    Nat.mod_lt _ (by norm_num)
  congr 1
  omega

lemma chunk_bounds_width (f t : Int) :
    ∀ p ∈ chunk_bounds f t, p.1 ≤ p.2 ∧ p.2 + 1 - p.1 ≤ 100 := by
  intro p hp
  rw [chunk_bounds, List.mem_map] at hp
  obtain ⟨i, hi, rfl⟩ := hp
  rw [List.mem_range] at hi
  rw [chunk_pair_fst, chunk_pair_snd]
  have hdm := Nat.div_add_mod ((t - f + 1).toNat + 99) 100
  have hmod : ((t - f + 1).toNat + 99) % 100 < 100 :=
    Nat.mod_lt _ (by norm_num)
  constructor <;> omega

lemma chunk_bounds_chain (f t : Int) :
    List.Chain' (fun x y => x.2 + 1 = y.1) (chunk_bounds f t) := by
  rw [chunk_bounds, List.chain'_map]
  rcases Nat.eq_zero_or_pos (((t - f + 1).toNat + 99) / 100) with h0 | h0
  · rw [h0, List.range_zero]
    exact List.chain'_nil
  · obtain ⟨k, hk⟩ : ∃ k, ((t - f + 1).toNat + 99) / 100 = k + 1 :=
      ⟨_, (Nat.succ_pred_eq_of_pos h0).symm⟩
    rw [hk]
    refine (List.chain'_range_succ _ k).mpr ?_
    intro i hi
    simp only [chunk_pair, Nat.succ_eq_add_one]
    push_cast
    omega

lemma chunk_bounds_single (f t : Int) (h : f = t) :
    chunk_bounds f t = [(f, t)] := by
  subst h
  have h1 : ((f - f + 1).toNat + 99) / 100 = 1 := by omega
  have hr : List.range 1 = [0] := rfl
  rw [chunk_bounds, h1, hr, List.map_cons, List.map_nil]
  have hp : chunk_pair f f 0 = (f, f) := by
    rw [Prod.ext_iff, chunk_pair_fst, chunk_pair_snd]
    constructor <;> omega
  rw [hp]

/-! ### Normalizer lemmas -/

lemma process_game_eq_some_iff (w : Shared) (p n : Bool) (d : Int) (g : Game)
    (r : GameRecord) :
    process_game w p n d g = .ok (some r) ↔
      ∃ st tms gid, g.status = some st ∧ g.teams = some tms ∧
        decode_game_id g.gamePk = .ok gid ∧
        (st.detailedState = "Final".data ∨ n = true) ∧
        (20000 ≤ gid ∨ p = true) ∧ gid < 40000 ∧
        r = mk_record w d g st tms := by
  constructor
  · intro h
    cases hst : g.status with
    | none =>
      simp only [process_game, hst] at h
      exact Except.noConfusion h
    | some st =>
      simp only [process_game, hst] at h
      by_cases hfin : st.detailedState = "Final".data ∨ n = true
      · rw [if_pos hfin] at h
        cases hdec : decode_game_id g.gamePk with
        | error e =>
          simp only [hdec] at h
          exact Except.noConfusion h
        | ok gid =>
          simp only [hdec] at h
          by_cases hrange : (20000 ≤ gid ∨ p = true) ∧ gid < 40000
          · rw [if_pos hrange] at h
            cases htm : g.teams with
            | none =>
              simp only [htm] at h
              exact Except.noConfusion h
            | some tms =>
              simp only [htm, Except.ok.injEq, Option.some.injEq] at h
              exact ⟨st, tms, gid, rfl, rfl, rfl, hfin, hrange.1, hrange.2,
                h.symm⟩
          · rw [if_neg hrange] at h
            simp only [Except.ok.injEq] at h
            exact absurd h.symm (Option.some_ne_none r)
      · rw [if_neg hfin] at h
        simp only [Except.ok.injEq] at h
        exact absurd h.symm (Option.some_ne_none r)
  · rintro ⟨st, tms, gid, hst, htm, hdec, hfin, hr1, hr2, rfl⟩
    simp only [process_game, hst, hdec, htm]
    rw [if_pos hfin, if_pos ⟨hr1, hr2⟩]

lemma process_game_ok_of_filters (w : Shared) (p n : Bool) (d : Int) (g : Game)
    (o : Option GameRecord) (h : process_game w p n d g = .ok o)
    (st : GameStatus) (gid : Nat)
    (hst : g.status = some st) (hdec : decode_game_id g.gamePk = .ok gid)
    (hfin : st.detailedState = "Final".data ∨ n = true)
    (hr1 : 20000 ≤ gid ∨ p = true) (hr2 : gid < 40000) :
    ∃ tms, g.teams = some tms ∧ o = some (mk_record w d g st tms) := by
  simp only [process_game, hst, hdec] at h
  rw [if_pos hfin, if_pos ⟨hr1, hr2⟩] at h
  cases htm : g.teams with
  | none =>
    simp only [htm] at h
    exact Except.noConfusion h
  | some tms =>
    simp only [htm, Except.ok.injEq] at h
    exact ⟨tms, rfl, h.symm⟩

lemma process_games_mem (w : Shared) (p n : Bool) (d : Int) :
    ∀ (gs : List Game) (rs : List GameRecord),
      process_games w p n d gs = .ok rs →
      ∀ r, r ∈ rs ↔ ∃ g ∈ gs, process_game w p n d g = .ok (some r) := by
  intro gs
  induction gs with
  | nil =>
    intro rs h r
    simp only [process_games, Except.ok.injEq] at h
    subst h
    simp
  | cons g gs ih =>
    intro rs h r
    cases ho : process_game w p n d g with
    | error e =>
      simp only [process_games, ho] at h
      exact Except.noConfusion h
    | ok o =>
      cases hrest : process_games w p n d gs with
      | error e =>
      simp only [process_games, ho, hrest] at h
      exact Except.noConfusion h
      | ok rest =>
        simp only [process_games, ho, hrest, Except.ok.injEq] at h
        subst h
        rw [List.mem_append]
        constructor
        · rintro (hro | hrr)
          · refine ⟨g, List.mem_cons_self g gs, ?_⟩
            rw [ho]
            cases o with
            | none => simp at hro
            | some x =>
              simp only [Option.toList_some, List.mem_singleton] at hro
              rw [hro]
          · obtain ⟨g2, hg2, hpg⟩ := (ih rest hrest r).mp hrr
            exact ⟨g2, List.mem_cons_of_mem g hg2, hpg⟩
        · rintro ⟨g2, hg2, hpg⟩
          rcases List.mem_cons.mp hg2 with rfl | hg3
          · left
            rw [ho] at hpg
            injection hpg with h2
            rw [h2]
            simp
          · right
            exact (ih rest hrest r).mpr ⟨g2, hg3, hpg⟩

lemma process_games_all_ok (w : Shared) (p n : Bool) (d : Int) :
    ∀ (gs : List Game) (rs : List GameRecord),
      process_games w p n d gs = .ok rs →
      ∀ g ∈ gs, ∃ o, process_game w p n d g = .ok o := by
  intro gs
  induction gs with
  | nil =>
    intro rs _ g hg
    exact absurd hg (List.not_mem_nil g)
  | cons g gs ih =>
    intro rs h g2 hg2
    cases ho : process_game w p n d g with
    | error e =>
      simp only [process_games, ho] at h
      exact Except.noConfusion h
    | ok o =>
      cases hrest : process_games w p n d gs with
      | error e =>
      simp only [process_games, ho, hrest] at h
      exact Except.noConfusion h
      | ok rest =>
        rcases List.mem_cons.mp hg2 with rfl | hg3
        · exact ⟨o, ho⟩
        · exact ih rest hrest g2 hg3

lemma process_days_mem (w : Shared) (p n : Bool) :
    ∀ (ds : List Day) (rs : List GameRecord),
      process_days w p n ds = .ok rs →
      ∀ r, r ∈ rs ↔ ∃ day ∈ ds, ∃ g ∈ day.games,
        process_game w p n day.date g = .ok (some r) := by
  intro ds
  induction ds with
  | nil =>
    intro rs h r
    simp only [process_days, Except.ok.injEq] at h
    subst h
    simp
  | cons day ds ih =>
    intro rs h r
    cases hd : process_games w p n day.date day.games with
    | error e =>
      simp only [process_days, hd] at h
      exact Except.noConfusion h
    | ok as =>
      cases hrest : process_days w p n ds with
      | error e =>
      simp only [process_days, hd, hrest] at h
      exact Except.noConfusion h
      | ok rest =>
        simp only [process_days, hd, hrest, Except.ok.injEq] at h
        subst h
        rw [List.mem_append]
        constructor
        · rintro (hra | hrr)
          · obtain ⟨g, hg, hpg⟩ :=
              (process_games_mem w p n day.date day.games as hd r).mp hra
            exact ⟨day, List.mem_cons_self day ds, g, hg, hpg⟩
          · obtain ⟨day2, hday2, g, hg, hpg⟩ := (ih rest hrest r).mp hrr
            exact ⟨day2, List.mem_cons_of_mem day hday2, g, hg, hpg⟩
        · rintro ⟨day2, hday2, g, hg, hpg⟩
          rcases List.mem_cons.mp hday2 with rfl | hd3
          · left
            exact (process_games_mem w p n day2.date day2.games as hd r).mpr
              ⟨g, hg, hpg⟩
          · right
            exact (ih rest hrest r).mpr ⟨day2, hd3, g, hg, hpg⟩

lemma process_days_all_ok (w : Shared) (p n : Bool) :
    ∀ (ds : List Day) (rs : List GameRecord),
      process_days w p n ds = .ok rs →
      ∀ day ∈ ds, ∀ g ∈ day.games, ∃ o, process_game w p n day.date g = .ok o := by
  intro ds
  induction ds with
  | nil =>
    intro rs _ day hday
    exact absurd hday (List.not_mem_nil day)
  | cons day ds ih =>
    intro rs h day2 hday2 g hg
    cases hd : process_games w p n day.date day.games with
    | error e =>
      simp only [process_days, hd] at h
      exact Except.noConfusion h
    | ok as =>
      cases hrest : process_days w p n ds with
      | error e =>
      simp only [process_days, hd, hrest] at h
      exact Except.noConfusion h
      | ok rest =>
        rcases List.mem_cons.mp hday2 with rfl | hd3
        · exact process_games_all_ok w p n day2.date day2.games as hd g hg
        · exact ih rest hrest day2 hd3 g hg

lemma process_chunks_mem (w : Shared) (p n : Bool) :
    ∀ (cs : List (List Day)) (rs : List GameRecord),
      process_chunks w p n cs = .ok rs →
      ∀ r, r ∈ rs ↔ ∃ c ∈ cs, ∃ day ∈ c, ∃ g ∈ day.games,
        process_game w p n day.date g = .ok (some r) := by
  intro cs
  induction cs with
  | nil =>
    intro rs h r
    simp only [process_chunks, Except.ok.injEq] at h
    subst h
    simp
  | cons c cs ih =>
    intro rs h r
    cases hc : process_days w p n c with
    | error e =>
      simp only [process_chunks, hc] at h
      exact Except.noConfusion h
    | ok as =>
      cases hrest : process_chunks w p n cs with
      | error e =>
      simp only [process_chunks, hc, hrest] at h
      exact Except.noConfusion h
      | ok rest =>
        simp only [process_chunks, hc, hrest, Except.ok.injEq] at h
        subst h
        rw [List.mem_append]
        constructor
        · rintro (hra | hrr)
          · obtain ⟨day, hday, g, hg, hpg⟩ :=
              (process_days_mem w p n c as hc r).mp hra
            exact ⟨c, List.mem_cons_self c cs, day, hday, g, hg, hpg⟩
          · obtain ⟨c2, hc2, day, hday, g, hg, hpg⟩ := (ih rest hrest r).mp hrr
            exact ⟨c2, List.mem_cons_of_mem c hc2, day, hday, g, hg, hpg⟩
        · rintro ⟨c2, hc2, day, hday, g, hg, hpg⟩
          rcases List.mem_cons.mp hc2 with rfl | hc3
          · left
            exact (process_days_mem w p n c2 as hc r).mpr ⟨day, hday, g, hg, hpg⟩
          · right
            exact (ih rest hrest r).mpr ⟨c2, hc3, day, hday, g, hg, hpg⟩

lemma process_chunks_all_ok (w : Shared) (p n : Bool) :
    ∀ (cs : List (List Day)) (rs : List GameRecord),
      process_chunks w p n cs = .ok rs →
      ∀ c ∈ cs, ∀ day ∈ c, ∀ g ∈ day.games,
        ∃ o, process_game w p n day.date g = .ok o := by
  intro cs
  induction cs with
  | nil =>
    intro rs _ c hc
    exact absurd hc (List.not_mem_nil c)
  | cons c cs ih =>
    intro rs h c2 hc2 day hday g hg
    cases hc : process_days w p n c with
    | error e =>
      simp only [process_chunks, hc] at h
      exact Except.noConfusion h
    | ok as =>
      cases hrest : process_chunks w p n cs with
      | error e =>
      simp only [process_chunks, hc, hrest] at h
      exact Except.noConfusion h
      | ok rest =>
        rcases List.mem_cons.mp hc2 with rfl | hc3
        · exact process_days_all_ok w p n c2 as hc day hday g hg
        · exact ih rest hrest c2 hc3 day hday g hg

lemma scrape_schedule_mem (w : Shared) (date_from date_to : Int)
    (p n : Bool) (sched : List GameRecord)
    (h : scrape_schedule w date_from date_to p n = .ok sched) (r : GameRecord) :
    r ∈ sched ↔ ∃ c ∈ chunk_schedule_calls w date_from date_to,
      ∃ day ∈ c, ∃ g ∈ day.games,
        process_game w p n day.date g = .ok (some r) :=
  process_chunks_mem w p n (chunk_schedule_calls w date_from date_to) sched h r

lemma scrape_schedule_all_ok (w : Shared) (date_from date_to : Int)
    (p n : Bool) (sched : List GameRecord)
    (h : scrape_schedule w date_from date_to p n = .ok sched) :
    ∀ c ∈ chunk_schedule_calls w date_from date_to, ∀ day ∈ c, ∀ g ∈ day.games,
      ∃ o, process_game w p n day.date g = .ok o :=
  process_chunks_all_ok w p n (chunk_schedule_calls w date_from date_to) sched h

/-! ### Determinism lemmas: the scrape pipeline reads only `get_file` and
`get_team` from the ambient state, never the clock. -/

lemma process_game_congr (w1 w2 : Shared) (hteam : w1.get_team = w2.get_team)
    (p n : Bool) (d : Int) (g : Game) :
    process_game w1 p n d g = process_game w2 p n d g := by
  simp only [process_game, mk_record, hteam]

lemma process_games_congr (w1 w2 : Shared) (hteam : w1.get_team = w2.get_team)
    (p n : Bool) (d : Int) :
    ∀ gs, process_games w1 p n d gs = process_games w2 p n d gs := by
  intro gs
  induction gs with
  | nil => rfl
  | cons g gs ih =>
    simp only [process_games, process_game_congr w1 w2 hteam p n d g, ih]

lemma process_days_congr (w1 w2 : Shared) (hteam : w1.get_team = w2.get_team)
    (p n : Bool) :
    ∀ ds, process_days w1 p n ds = process_days w2 p n ds := by
  intro ds
  induction ds with
  | nil => rfl
  | cons d ds ih =>
    simp only [process_days, process_games_congr w1 w2 hteam p n d.date, ih]

lemma process_chunks_congr (w1 w2 : Shared) (hteam : w1.get_team = w2.get_team)
    (p n : Bool) :
    ∀ cs, process_chunks w1 p n cs = process_chunks w2 p n cs := by
  intro cs
  induction cs with
  | nil => rfl
  | cons c cs ih =>
    simp only [process_chunks, process_days_congr w1 w2 hteam p n c, ih]

lemma chunk_schedule_calls_congr (w1 w2 : Shared)
    (hfile : w1.get_file = w2.get_file) (from_date to_date : Int) :
    chunk_schedule_calls w1 from_date to_date =
      chunk_schedule_calls w2 from_date to_date := by
  simp only [chunk_schedule_calls, get_schedule, hfile]

/-! ### Date-order lemmas -/

lemma process_game_date (w : Shared) (p n : Bool) (d : Int) (g : Game)
    (r : GameRecord) (h : process_game w p n d g = .ok (some r)) :
    r.date = d := by
  obtain ⟨st, tms, gid, -, -, -, -, -, -, rfl⟩ :=
    (process_game_eq_some_iff w p n d g r).mp h
  rfl

lemma process_days_date_mem (w : Shared) (p n : Bool) (ds : List Day)
    (rs : List GameRecord) (h : process_days w p n ds = .ok rs) :
    ∀ r ∈ rs, ∃ day ∈ ds, r.date = day.date := by
  intro r hr
  obtain ⟨day, hday, g, hg, hpg⟩ := (process_days_mem w p n ds rs h r).mp hr
  exact ⟨day, hday, process_game_date w p n day.date g r hpg⟩

lemma process_chunks_date_mem (w : Shared) (p n : Bool) (cs : List (List Day))
    (rs : List GameRecord) (h : process_chunks w p n cs = .ok rs) :
    ∀ r ∈ rs, ∃ c ∈ cs, ∃ day ∈ c, r.date = day.date := by
  intro r hr
  obtain ⟨c, hc, day, hday, g, hg, hpg⟩ :=
    (process_chunks_mem w p n cs rs h r).mp hr
  exact ⟨c, hc, day, hday, process_game_date w p n day.date g r hpg⟩

lemma process_games_date (w : Shared) (p n : Bool) (d : Int) (gs : List Game)
    (rs : List GameRecord) (h : process_games w p n d gs = .ok rs) :
    ∀ r ∈ rs, r.date = d := by
  intro r hr
  obtain ⟨g, hg, hpg⟩ := (process_games_mem w p n d gs rs h r).mp hr
  exact process_game_date w p n d g r hpg

lemma process_days_sorted (w : Shared) (p n : Bool) :
    ∀ (ds : List Day) (rs : List GameRecord),
      process_days w p n ds = .ok rs →
      List.Pairwise (fun a b => a.date ≤ b.date) ds →
      List.Pairwise (fun r s => r.date ≤ s.date) rs := by
  intro ds
  induction ds with
  | nil =>
    intro rs h _
    simp only [process_days, Except.ok.injEq] at h
    subst h
    exact List.Pairwise.nil
  | cons day ds ih =>
    intro rs h hsort
    cases hd : process_games w p n day.date day.games with
    | error e =>
      simp only [process_days, hd] at h
      exact Except.noConfusion h
    | ok as =>
      cases hrest : process_days w p n ds with
      | error e =>
        simp only [process_days, hd, hrest] at h
        exact Except.noConfusion h
      | ok rest =>
        simp only [process_days, hd, hrest, Except.ok.injEq] at h
        subst h
        rw [List.pairwise_append]
        obtain ⟨hhead, htail⟩ := List.pairwise_cons.mp hsort
        refine ⟨?_, ih rest hrest htail, ?_⟩
        · have hall := process_games_date w p n day.date day.games as hd
          exact List.Pairwise.imp_of_mem
            (fun ha hb _ => by rw [hall _ ha, hall _ hb])
            (List.pairwise_of_forall_mem_list (fun a _ b _ => trivial))
        · intro a ha b hb
          rw [process_games_date w p n day.date day.games as hd a ha]
          obtain ⟨day2, hday2, hbd⟩ :=
            process_days_date_mem w p n ds rest hrest b hb
          rw [hbd]
          exact hhead day2 hday2

lemma process_chunks_sorted (w : Shared) (p n : Bool) :
    ∀ (cs : List (List Day)) (rs : List GameRecord),
      process_chunks w p n cs = .ok rs →
      (∀ c ∈ cs, List.Pairwise (fun a b => a.date ≤ b.date) c) →
      List.Pairwise
        (fun c c2 => ∀ day ∈ c, ∀ day2 ∈ c2, day.date ≤ day2.date) cs →
      List.Pairwise (fun r s => r.date ≤ s.date) rs := by
  intro cs
  induction cs with
  | nil =>
    intro rs h _ _
    simp only [process_chunks, Except.ok.injEq] at h
    subst h
    exact List.Pairwise.nil
  | cons c cs ih =>
    intro rs h hin hcross
    cases hc : process_days w p n c with
    | error e =>
      simp only [process_chunks, hc] at h
      exact Except.noConfusion h
    | ok as =>
      cases hrest : process_chunks w p n cs with
      | error e =>
        simp only [process_chunks, hc, hrest] at h
        exact Except.noConfusion h
      | ok rest =>
        simp only [process_chunks, hc, hrest, Except.ok.injEq] at h
        subst h
        rw [List.pairwise_append]
        obtain ⟨hhead, htail⟩ := List.pairwise_cons.mp hcross
        refine ⟨process_days_sorted w p n c as hc
            (hin c (List.mem_cons_self c cs)),
          ih rest hrest (fun c2 hc2 => hin c2 (List.mem_cons_of_mem c hc2))
            htail, ?_⟩
        intro a ha b hb
        obtain ⟨day, hday, had⟩ := process_days_date_mem w p n c as hc a ha
        obtain ⟨c2, hc2, day2, hday2, hbd⟩ :=
          process_chunks_date_mem w p n cs rest hrest b hb
        rw [had, hbd]
        exact hhead c2 hc2 day hday day2 hday2

lemma chunk_bounds_pairwise (f t : Int) :
    List.Pairwise (fun x y => x.2 < y.1) (chunk_bounds f t) := by
  rw [List.pairwise_iff_getElem]
  intro i j hi hj hij
  have hi2 : i < ((t - f + 1).toNat + 99) / 100 := by
    rwa [chunk_bounds_length] at hi
  have hj2 : j < ((t - f + 1).toNat + 99) / 100 := by
    rwa [chunk_bounds_length] at hj
  have e1 : (chunk_bounds f t)[i] = chunk_pair f t i := by
    have h1 := chunk_bounds_getElem? f t i hi2
    rwa [List.getElem?_eq_getElem hi, Option.some.injEq] at h1
  have e2 : (chunk_bounds f t)[j] = chunk_pair f t j := by
    have h1 := chunk_bounds_getElem? f t j hj2
    rwa [List.getElem?_eq_getElem hj, Option.some.injEq] at h1
  rw [e1, e2, chunk_pair_fst, chunk_pair_snd]
  have hij2 : (i : Int) < (j : Int) := by exact_mod_cast hij
  omega

/-! ### Lexicographic order on identifier strings -/

lemma lexLe_refl : ∀ a : DecStr, lexLe a a = true := by
  intro a
  induction a with
  | nil => rfl
  | cons x as ih => simp [lexLe, ih]

lemma lexLe_total : ∀ a b : DecStr, lexLe a b = true ∨ lexLe b a = true := by
  intro a
  induction a with
  | nil => intro b; left; rfl
  | cons x as ih =>
    intro b
    cases b with
    | nil => right; rfl
    | cons y bs =>
      rcases Nat.lt_trichotomy x y with h | h | h
      · left; simp [lexLe, h]
      · subst h
        rcases ih bs with h2 | h2
        · left; simp [lexLe, h2]
        · right; simp [lexLe, h2]
      · right; simp [lexLe, h]

lemma lexLe_trans : ∀ a b c : DecStr,
    lexLe a b = true → lexLe b c = true → lexLe a c = true := by
  intro a
  induction a with
  | nil => intro b c _ _; rfl
  | cons x as ih =>
    intro b c hab hbc
    cases b with
    | nil => simp [lexLe] at hab
    | cons y bs =>
      cases c with
      | nil => simp [lexLe] at hbc
      | cons z cs =>
        simp only [lexLe, Bool.or_eq_true, Bool.and_eq_true,
          decide_eq_true_eq, beq_iff_eq] at hab hbc ⊢
        rcases hab with h1 | ⟨h1, h2⟩
        · rcases hbc with h3 | ⟨h3, h4⟩
          · left; omega
          · left; omega
        · rcases hbc with h3 | ⟨h3, h4⟩
          · left; omega
          · right
            exact ⟨by omega, ih bs cs h2 h4⟩

lemma mergeSort_lexLe_sorted (l : List DecStr) :
    List.Pairwise (fun a b => lexLe a b = true) (l.mergeSort lexLe) :=
  List.sorted_mergeSort lexLe_trans
    (fun a b => by rcases lexLe_total a b with h | h <;> simp [h]) l

lemma mergeSort_head_min (l : List DecStr) (g0 : DecStr) (rest : List DecStr)
    (h : l.mergeSort lexLe = g0 :: rest) :
    ∀ x ∈ l, lexLe g0 x = true := by
  have hperm := List.mergeSort_perm l lexLe
  have hsorted := mergeSort_lexLe_sorted l
  rw [h] at hsorted hperm
  intro x hx
  rcases List.mem_cons.mp (hperm.mem_iff.mpr hx) with rfl | hx3
  · exact lexLe_refl x
  · exact (List.pairwise_cons.mp hsorted).1 x hx3

lemma pairwise_le_getLast :
    ∀ (l : List DecStr) (h : l ≠ []),
      List.Pairwise (fun a b => lexLe a b = true) l →
      ∀ x ∈ l, lexLe x (l.getLast h) = true := by
  intro l
  induction l with
  | nil => intro h; exact absurd rfl h
  | cons a l ih =>
    intro h hp x hx
    cases l with
    | nil =>
      rcases List.mem_singleton.mp hx with rfl
      exact lexLe_refl x
    | cons b l2 =>
      rw [List.getLast_cons (List.cons_ne_nil b l2)]
      rcases List.mem_cons.mp hx with rfl | hx2
      · exact (List.pairwise_cons.mp hp).1 _ (List.getLast_mem _)
      · exact ih (List.cons_ne_nil b l2) (List.pairwise_cons.mp hp).2 x hx2

lemma mergeSort_last_max (l : List DecStr) (g0 : DecStr) (rest : List DecStr)
    (h : l.mergeSort lexLe = g0 :: rest) :
    ∀ x ∈ l,
      lexLe x ((g0 :: rest).getLast (List.cons_ne_nil g0 rest)) = true := by
  have hperm := List.mergeSort_perm l lexLe
  have hsorted := mergeSort_lexLe_sorted l
  rw [h] at hsorted hperm
  intro x hx
  exact pairwise_le_getLast (g0 :: rest) (List.cons_ne_nil g0 rest) hsorted x
    (hperm.mem_iff.mpr hx)

lemma chunk_bounds_flat (f t : Int) (h : f ≤ t) :
    (chunk_bounds f t).flatMap daySpan = daySpan (f, t) := by
  obtain ⟨p, bs, hpbs⟩ : ∃ p bs, chunk_bounds f t = p :: bs := by
    cases hcb : chunk_bounds f t with
    | nil => exact absurd hcb (chunk_bounds_ne_nil f t h)
    | cons p bs => exact ⟨p, bs, rfl⟩
  have hw : ∀ q ∈ p :: bs, q.1 ≤ q.2 := by
    intro q hq
    exact (chunk_bounds_width f t q (hpbs ▸ hq)).1
  have hchain := chunk_bounds_chain f t
  rw [hpbs] at hchain
  obtain ⟨hEq, -⟩ := flatMap_daySpan bs p hw hchain
  have hhead : p.1 = f := by
    have h1 := chunk_bounds_head f t h
    rw [hpbs, List.head?_cons, Option.map_some'] at h1
    exact Option.some.inj h1
  have hlast : ((p :: bs).getLast (List.cons_ne_nil p bs)).2 = t := by
    have h2 := chunk_bounds_last f t h
    rw [hpbs, List.getLast?_eq_getLast (p :: bs) (List.cons_ne_nil p bs),
      Option.map_some'] at h2
    exact Option.some.inj h2
  rw [hpbs, hEq, hhead, hlast]

/-! ### The claims -/

/-- C2: for every pair of dates with `date_from ≤ date_to` and window
`100` days, `chunk_schedule_calls` issues one sub-request per chunk, and the
chunks partition `[date_from, date_to]` exactly: ascending order, no gaps, no
overlaps (adjacent chunks abut: `q.2 + 1 = q'.1`, and the concatenated day
spans are exactly the days of the range), the first chunk starts at
`date_from`, the last chunk ends at `date_to`, each chunk spans at most 100
days; `date_from = date_to` yields exactly one chunk of length 1. -/
theorem chunk_schedule_calls_partition (w : Shared) (date_from date_to : Int)
    (h : date_from ≤ date_to) :
    chunk_schedule_calls w date_from date_to =
      (chunk_bounds date_from date_to).map
        (fun q => (get_schedule w q.1 q.2).dates) ∧
    (chunk_bounds date_from date_to).head?.map Prod.fst = some date_from ∧
    (chunk_bounds date_from date_to).getLast?.map Prod.snd = some date_to ∧
    (∀ q ∈ chunk_bounds date_from date_to, q.1 ≤ q.2 ∧ q.2 + 1 - q.1 ≤ 100) ∧
    List.Chain' (fun q q2 => q.2 + 1 = q2.1)
      (chunk_bounds date_from date_to) ∧
    (chunk_bounds date_from date_to).flatMap daySpan =
      daySpan (date_from, date_to) ∧
    (date_from = date_to →
      chunk_bounds date_from date_to = [(date_from, date_to)]) :=
  ⟨rfl, chunk_bounds_head date_from date_to h,
    chunk_bounds_last date_from date_to h,
    chunk_bounds_width date_from date_to,
    chunk_bounds_chain date_from date_to,
    chunk_bounds_flat date_from date_to h,
    chunk_bounds_single date_from date_to⟩

/-- Witness for C2 at the concrete range `[0, 150]` (two chunks). -/
theorem chunk_schedule_calls_partition_witness :
    (0 : Int) ≤ 150 ∧
    (chunk_schedule_calls demoShared 0 150 =
      (chunk_bounds 0 150).map
        (fun q => (get_schedule demoShared q.1 q.2).dates) ∧
    (chunk_bounds 0 150).head?.map Prod.fst = some 0 ∧
    (chunk_bounds 0 150).getLast?.map Prod.snd = some 150 ∧
    (∀ q ∈ chunk_bounds 0 150, q.1 ≤ q.2 ∧ q.2 + 1 - q.1 ≤ 100) ∧
    List.Chain' (fun q q2 => q.2 + 1 = q2.1) (chunk_bounds 0 150) ∧
    (chunk_bounds 0 150).flatMap daySpan = daySpan (0, 150) ∧
    ((0 : Int) = 150 → chunk_bounds 0 150 = [(0, 150)])) :=
  ⟨by decide, chunk_schedule_calls_partition demoShared 0 150 (by decide)⟩

/-- C5 counterexample: with `date_from = 1 > 0 = date_to`, the Date Chunker
does not fail at all — `chunk_schedule_calls` returns the empty list and
`scrape_schedule` returns an empty result, with no error of any kind (the
code has no `InvalidRangeError`). -/
theorem inverted_range_no_failure :
    chunk_schedule_calls demoShared 1 0 = [] ∧
    scrape_schedule demoShared 1 0 false false = .ok [] := by
  exact ⟨by decide, by decide⟩

/-- C5 amended: when called with `date_from` strictly after `date_to`,
`chunk_schedule_calls` raises nothing and returns the empty list (the loop
body never runs), instead of failing with an `InvalidRangeError`. -/
theorem chunk_schedule_calls_inverted_empty (w : Shared)
    (date_from date_to : Int) (h : date_to < date_from) :
    chunk_schedule_calls w date_from date_to = [] := by
  rw [chunk_schedule_calls, chunk_bounds_empty date_from date_to h]
  rfl

/-- Witness for the amended C5 at `date_from = 5`, `date_to = 3`. -/
theorem chunk_schedule_calls_inverted_empty_witness :
    (3 : Int) < 5 ∧ chunk_schedule_calls demoShared 5 3 = [] :=
  ⟨by decide, chunk_schedule_calls_inverted_empty demoShared 5 3 (by decide)⟩

/-- C10: for every pair of (parseable) dates with `date_from` strictly after
`date_to`, `chunk_schedule_calls` returns an empty list without issuing any
fetch and without raising (it holds for every fetcher `w`), and hence
`scrape_schedule` returns an empty record list. -/
theorem inverted_range_returns_empty (w : Shared) (date_from date_to : Int)
    (preseason not_over : Bool) (h : date_to < date_from) :
    chunk_schedule_calls w date_from date_to = [] ∧
    scrape_schedule w date_from date_to preseason not_over = .ok [] := by
  have hb := chunk_bounds_empty date_from date_to h
  constructor
  · rw [chunk_schedule_calls, hb]
    rfl
  · rw [scrape_schedule, chunk_schedule_calls, hb]
    rfl

/-- Witness for C10 at `date_from = 1`, `date_to = 0`. -/
theorem inverted_range_returns_empty_witness :
    (0 : Int) < 1 ∧
    (chunk_schedule_calls demoSharedLater 1 0 = [] ∧
      scrape_schedule demoSharedLater 1 0 true true = .ok []) :=
  ⟨by decide, inverted_range_returns_empty demoSharedLater 1 0 true true
    (by decide)⟩

/-- C8: `scrape_schedule` is a pure function of its arguments, the fetched
responses and the team canonicalizer: two worlds that agree on `get_file`
and `get_team` (but may differ in clock, season tag, or date conversion)
produce identical results, so re-running against identical upstream
responses yields identical GameRecord lists. -/
theorem scrape_schedule_deterministic (w1 w2 : Shared)
    (date_from date_to : Int) (preseason not_over : Bool)
    (hfile : w1.get_file = w2.get_file) (hteam : w1.get_team = w2.get_team) :
    scrape_schedule w1 date_from date_to preseason not_over =
      scrape_schedule w2 date_from date_to preseason not_over := by
  rw [scrape_schedule, scrape_schedule,
    chunk_schedule_calls_congr w1 w2 hfile date_from date_to,
    process_chunks_congr w1 w2 hteam preseason not_over]

/-- Witness for C8: two worlds differing only in the clock and season tag
give the same scrape result. -/
theorem scrape_schedule_deterministic_witness :
    demoShared.today ≠ demoSharedLater.today ∧
    demoShared.get_file = demoSharedLater.get_file ∧
    demoShared.get_team = demoSharedLater.get_team ∧
    scrape_schedule demoShared 100 100 false false =
      scrape_schedule demoSharedLater 100 100 false false :=
  ⟨by decide, rfl, rfl,
    scrape_schedule_deterministic demoShared demoSharedLater 100 100
      false false rfl rfl⟩

/-- C9: `get_dates` on an empty identifier list fails with an `IndexError`
(from `games[0]`), for every world — in particular before any fetch is
issued. -/
theorem get_dates_empty_indexError (w : Shared) :
    get_dates w [] = .error .indexError := by
  have h : ([] : List DecStr).mergeSort lexLe = [] :=
    List.perm_nil.mp (List.mergeSort_perm [] lexLe)
  simp only [get_dates, h]

/-- C1: in a `scrape_schedule` run that returns normally, a game entry from a
fetched chunk is emitted as a GameRecord if and only if
(`detailedState = "Final"` or `not_over`) and (its decoded id — the raw
`gamePk` with the first 5 digits stripped, read as an integer — is `≥ 20000`
or `preseason`) and the decoded id is `< 40000`; every game passing those
filters is emitted; and consequently every emitted GameRecord's decoded
`game_id` lies within the requested game-type range. -/
theorem scrape_schedule_emits_iff (w : Shared) (date_from date_to : Int)
    (preseason not_over : Bool) (sched : List GameRecord)
    (h : scrape_schedule w date_from date_to preseason not_over = .ok sched) :
    (∀ r : GameRecord, r ∈ sched ↔
      ∃ c ∈ chunk_schedule_calls w date_from date_to, ∃ day ∈ c,
        ∃ g ∈ day.games, ∃ st tms gid,
          g.status = some st ∧ g.teams = some tms ∧
          decode_game_id g.gamePk = .ok gid ∧
          (st.detailedState = "Final".data ∨ not_over = true) ∧
          (20000 ≤ gid ∨ preseason = true) ∧ gid < 40000 ∧
          r = mk_record w day.date g st tms) ∧
    (∀ c ∈ chunk_schedule_calls w date_from date_to, ∀ day ∈ c,
      ∀ g ∈ day.games, ∀ st gid,
        g.status = some st → decode_game_id g.gamePk = .ok gid →
        (st.detailedState = "Final".data ∨ not_over = true) →
        (20000 ≤ gid ∨ preseason = true) → gid < 40000 →
        ∃ tms, g.teams = some tms ∧ mk_record w day.date g st tms ∈ sched) ∧
    (∀ r ∈ sched, ∃ gid, decode_game_id r.game_id = .ok gid ∧
      (20000 ≤ gid ∨ preseason = true) ∧ gid < 40000) := by
  refine ⟨?_, ?_, ?_⟩
  · intro r
    rw [scrape_schedule_mem w date_from date_to preseason not_over sched h r]
    constructor
    · rintro ⟨c, hc, day, hday, g, hg, hpg⟩
      obtain ⟨st, tms, gid, h1, h2, h3, h4, h5, h6, h7⟩ :=
        (process_game_eq_some_iff w preseason not_over day.date g r).mp hpg
      exact ⟨c, hc, day, hday, g, hg, st, tms, gid, h1, h2, h3, h4, h5, h6, h7⟩
    · rintro ⟨c, hc, day, hday, g, hg, st, tms, gid, h1, h2, h3, h4, h5, h6, h7⟩
      exact ⟨c, hc, day, hday, g, hg,
        (process_game_eq_some_iff w preseason not_over day.date g r).mpr
          ⟨st, tms, gid, h1, h2, h3, h4, h5, h6, h7⟩⟩
  · intro c hc day hday g hg st gid hst hdec hfin hr1 hr2
    obtain ⟨o, ho⟩ := scrape_schedule_all_ok w date_from date_to preseason
      not_over sched h c hc day hday g hg
    obtain ⟨tms, htm, rfl⟩ := process_game_ok_of_filters w preseason not_over
      day.date g o ho st gid hst hdec hfin hr1 hr2
    refine ⟨tms, htm, ?_⟩
    rw [scrape_schedule_mem w date_from date_to preseason not_over sched h]
    refine ⟨c, hc, day, hday, g, hg, ?_⟩
    rw [ho]
  · intro r hr
    rw [scrape_schedule_mem w date_from date_to preseason not_over sched h r]
      at hr
    obtain ⟨c, hc, day, hday, g, hg, hpg⟩ := hr
    obtain ⟨st, tms, gid, h1, h2, h3, h4, h5, h6, rfl⟩ :=
      (process_game_eq_some_iff w preseason not_over day.date g r).mp hpg
    exact ⟨gid, h3, h5, h6⟩

/-- Witness for C1: the demo world emits exactly the record of its one
"Final" regular-season game, and the membership equivalence holds for it. -/
theorem scrape_schedule_emits_iff_witness :
    scrape_schedule demoShared 100 100 false false = .ok [demoRec] ∧
    (demoRec ∈ [demoRec] ↔
      ∃ c ∈ chunk_schedule_calls demoShared 100 100, ∃ day ∈ c,
        ∃ g ∈ day.games, ∃ st tms gid,
          g.status = some st ∧ g.teams = some tms ∧
          decode_game_id g.gamePk = .ok gid ∧
          (st.detailedState = "Final".data ∨ false = true) ∧
          (20000 ≤ gid ∨ false = true) ∧ gid < 40000 ∧
          demoRec = mk_record demoShared day.date g st tms) :=
  ⟨by decide,
    (scrape_schedule_emits_iff demoShared 100 100 false false [demoRec]
      (by decide)).1 demoRec⟩

/-- C4: every GameRecord emitted by `scrape_schedule` is built from its
game's raw JSON entry as: `game_id` is the raw numeric `gamePk` unchanged;
`date` is the enclosing day's date; `start_time` is the game's timestamp
with its trailing timezone marker trimmed (then parsed with the fixed
format); `venue` is the venue name if present (else absent); `home_team` and
`away_team` are the upstream team names uppercased and passed through the
external canonicalizer; `home_score` / `away_score` are present only if
present upstream; `status` is the upstream `abstractGameState`. -/
theorem scrape_schedule_record_fields (w : Shared) (date_from date_to : Int)
    (preseason not_over : Bool) (sched : List GameRecord)
    (h : scrape_schedule w date_from date_to preseason not_over = .ok sched) :
    ∀ r ∈ sched, ∃ c ∈ chunk_schedule_calls w date_from date_to, ∃ day ∈ c,
      ∃ g ∈ day.games, ∃ st tms,
        g.status = some st ∧ g.teams = some tms ∧
        r.game_id = g.gamePk ∧
        r.date = day.date ∧
        r.start_time = g.gameDate.dropLast ∧
        r.venue = g.venue ∧
        r.home_team = w.get_team (tms.home.name.map Char.toUpper) ∧
        r.away_team = w.get_team (tms.away.name.map Char.toUpper) ∧
        r.home_score = tms.home.score ∧
        r.away_score = tms.away.score ∧
        r.status = st.abstractGameState := by
  intro r hr
  rw [scrape_schedule_mem w date_from date_to preseason not_over sched h r]
    at hr
  obtain ⟨c, hc, day, hday, g, hg, hpg⟩ := hr
  obtain ⟨st, tms, gid, h1, h2, h3, h4, h5, h6, rfl⟩ :=
    (process_game_eq_some_iff w preseason not_over day.date g r).mp hpg
  exact ⟨c, hc, day, hday, g, hg, st, tms, h1, h2, rfl, rfl, rfl, rfl, rfl,
    rfl, rfl, rfl, rfl⟩

/-- Witness for C4 at the demo run and its single emitted record. -/
theorem scrape_schedule_record_fields_witness :
    scrape_schedule demoShared 100 100 false false = .ok [demoRec] ∧
    (∃ c ∈ chunk_schedule_calls demoShared 100 100, ∃ day ∈ c,
      ∃ g ∈ day.games, ∃ st tms,
        g.status = some st ∧ g.teams = some tms ∧
        demoRec.game_id = g.gamePk ∧
        demoRec.date = day.date ∧
        demoRec.start_time = g.gameDate.dropLast ∧
        demoRec.venue = g.venue ∧
        demoRec.home_team = demoShared.get_team (tms.home.name.map Char.toUpper) ∧
        demoRec.away_team = demoShared.get_team (tms.away.name.map Char.toUpper) ∧
        demoRec.home_score = tms.home.score ∧
        demoRec.away_score = tms.away.score ∧
        demoRec.status = st.abstractGameState) :=
  ⟨by decide,
    scrape_schedule_record_fields demoShared 100 100 false false [demoRec]
      (by decide) demoRec (by decide)⟩

/-- C6 counterexample: a game passing the completion and game-type filters
but missing its `teams` key makes `scrape_schedule` fail with a bare
`KeyError "teams"` — the same error value for two different offending
`gamePk`s (2016020001 and 2016020777), so the failure carries only the
missing key's name and does not identify the offending game's raw
identifier, and no `SchemaError` exists in the code. -/
theorem missing_teams_error_not_identifying :
    demoGameNoTeamsA.gamePk ≠ demoGameNoTeamsB.gamePk ∧
    scrape_schedule demoSharedNoTeamsA 100 100 false false =
      .error (.keyError "teams") ∧
    scrape_schedule demoSharedNoTeamsB 100 100 false false =
      .error (.keyError "teams") :=
  ⟨by decide, by decide, by decide⟩

/-- C6 amended: if a game entry passing the completion and game-type filters
is missing its `teams` field, `scrape_schedule` fails (it does not silently
skip the game) — but with Python's `KeyError` naming only the missing key
`"teams"`, not a `SchemaError` identifying the offending game's raw
identifier. -/
theorem missing_teams_keyError (w : Shared) (preseason not_over : Bool)
    (date_from date_to d : Int) (g : Game) (st : GameStatus) (gid : Nat)
    (hst : g.status = some st) (hdec : decode_game_id g.gamePk = .ok gid)
    (hfin : st.detailedState = "Final".data ∨ not_over = true)
    (hr1 : 20000 ≤ gid ∨ preseason = true) (hr2 : gid < 40000)
    (htm : g.teams = none)
    (hfile : w.get_file = fun _ _ => ⟨[⟨d, [g]⟩]⟩)
    (hrange : date_from ≤ date_to) :
    scrape_schedule w date_from date_to preseason not_over =
      .error (.keyError "teams") := by
  have hpg : process_game w preseason not_over d g =
      .error (.keyError "teams") := by
    simp only [process_game, hst, hdec, htm]
    rw [if_pos hfin, if_pos ⟨hr1, hr2⟩]
  obtain ⟨q, bs, hqbs⟩ : ∃ q bs, chunk_bounds date_from date_to = q :: bs := by
    cases hcb : chunk_bounds date_from date_to with
    | nil => exact absurd hcb (chunk_bounds_ne_nil date_from date_to hrange)
    | cons q bs => exact ⟨q, bs, rfl⟩
  rw [scrape_schedule, chunk_schedule_calls, hqbs, List.map_cons]
  simp only [get_schedule, hfile]
  simp only [process_chunks, process_days, process_games, hpg]

/-- Witness for the amended C6: the demo game with no `teams` key. -/
theorem missing_teams_keyError_witness :
    demoGameNoTeamsA.teams = none ∧
    scrape_schedule demoSharedNoTeamsA 100 100 false false =
      .error (.keyError "teams") :=
  ⟨rfl, missing_teams_keyError demoSharedNoTeamsA false false 100 100 100
    demoGameNoTeamsA demoStatusFinal 20001 rfl (by decide) (by decide)
    (by decide) (by decide) rfl rfl (by decide)⟩

/-- C7: within a single `scrape_schedule` run in which each chunk's day
entries lie in the chunk's requested sub-range and are in ascending date
order as delivered upstream, the dates of the emitted GameRecords form a
non-decreasing sequence (chunks are consumed in chunk-start order). -/
theorem scrape_schedule_dates_monotone (w : Shared) (date_from date_to : Int)
    (preseason not_over : Bool) (sched : List GameRecord)
    (hin : ∀ q ∈ chunk_bounds date_from date_to,
        ∀ day ∈ (get_schedule w q.1 q.2).dates,
          q.1 ≤ day.date ∧ day.date ≤ q.2)
    (hasc : ∀ q ∈ chunk_bounds date_from date_to,
        List.Pairwise (fun a b => a.date ≤ b.date)
          (get_schedule w q.1 q.2).dates)
    (h : scrape_schedule w date_from date_to preseason not_over = .ok sched) :
    List.Pairwise (fun r s => r.date ≤ s.date) sched := by
  apply process_chunks_sorted w preseason not_over
    (chunk_schedule_calls w date_from date_to) sched h
  · intro c hc
    rw [chunk_schedule_calls, List.mem_map] at hc
    obtain ⟨q, hq, rfl⟩ := hc
    exact hasc q hq
  · rw [chunk_schedule_calls, List.pairwise_map]
    refine List.Pairwise.imp_of_mem ?_
      (chunk_bounds_pairwise date_from date_to)
    intro q q2 hq hq2 hlt day hday day2 hday2
    have h1 := (hin q hq day hday).2
    have h2 := (hin q2 hq2 day2 hday2).1
    omega

/-- Witness for C7 at the demo run. -/
theorem scrape_schedule_dates_monotone_witness :
    scrape_schedule demoShared 100 100 false false = .ok [demoRec] ∧
    List.Pairwise (fun r s => r.date ≤ s.date) [demoRec] :=
  ⟨by decide,
    scrape_schedule_dates_monotone demoShared 100 100 false false [demoRec]
      (by decide) (by intro q hq; simp [get_schedule, demoShared]) (by decide)⟩

lemma perm_contains (l1 l2 : List DecStr) (hp : l1.Perm l2) (z : DecStr) :
    l1.contains z = l2.contains z := by
  have h1 : l1.contains z = true ↔ z ∈ l1 := List.elem_iff
  have h2 : l2.contains z = true ↔ z ∈ l2 := List.elem_iff
  have hiff : l1.contains z = true ↔ l2.contains z = true := by
    rw [h1, h2]
    exact hp.mem_iff
  cases hc1 : l1.contains z <;> cases hc2 : l2.contains z
  · rfl
  · rw [hc1, hc2] at hiff
    exact absurd (hiff.mpr rfl) (by simp)
  · rw [hc1, hc2] at hiff
    exact absurd (hiff.mp rfl) (by simp)
  · rfl

/-- C3: for a non-empty identifier list (numeric strings), `get_dates` sorts
the identifiers, so the head of the sorted list is the lexicographically
earliest and its last the latest; it scrapes from September 1 of the
earliest identifier's season year up to today when the latest identifier's
season year equals the current season and to July 1 of that season year plus
one otherwise, with `preseason := true` and `not_over := true`; and it
returns exactly the records whose `game_id`, stringified, is in the
requested set, in the normalizer's emission order. -/
theorem get_dates_range_and_filter (w : Shared) (games0 : List DecStr)
    (g0 : DecStr) (rest : List DecStr)
    (hsort : games0.mergeSort lexLe = g0 :: rest)
    (hyf : g0.take 4 ≠ [])
    (hyt : ((g0 :: rest).getLast (List.cons_ne_nil g0 rest)).take 4 ≠ []) :
    (∀ x ∈ games0, lexLe g0 x = true) ∧
    (∀ x ∈ games0,
      lexLe x ((g0 :: rest).getLast (List.cons_ne_nil g0 rest)) = true) ∧
    get_dates w games0 =
      (scrape_schedule w (w.toDays ⟨fromDecDigits (g0.take 4), 9, 1⟩)
          (if ((g0 :: rest).getLast (List.cons_ne_nil g0 rest)).take 4 =
              w.current_season
            then w.toDays w.today
            else w.toDays
              ⟨fromDecDigits
                  (((g0 :: rest).getLast (List.cons_ne_nil g0 rest)).take 4)
                  + 1, 7, 1⟩)
          true true).map
        (fun sched => sched.filter
          (fun g => games0.contains (pyDecDigits g.game_id))) := by
  refine ⟨mergeSort_head_min games0 g0 rest hsort,
    mergeSort_last_max games0 g0 rest hsort, ?_⟩
  have hperm : (g0 :: rest).Perm games0 :=
    hsort ▸ List.mergeSort_perm games0 lexLe
  have hcont : ∀ z, (g0 :: rest).contains z = games0.contains z :=
    fun z => perm_contains (g0 :: rest) games0 hperm z
  simp only [get_dates, hsort]
  by_cases hseason : ((g0 :: rest).getLast (List.cons_ne_nil g0 rest)).take 4
      = w.current_season
  · rw [if_pos hseason, if_pos hseason, if_neg hyf]
    cases hs : scrape_schedule w
        (w.toDays ⟨fromDecDigits (g0.take 4), 9, 1⟩) (w.toDays w.today)
        true true with
    | error e => rfl
    | ok s =>
      show Except.ok
          (s.filter (fun g => (g0 :: rest).contains (pyDecDigits g.game_id)))
          = Except.ok
          (s.filter (fun g => games0.contains (pyDecDigits g.game_id)))
      rw [List.filter_congr (fun x _ => hcont (pyDecDigits x.game_id))]
  · rw [if_neg hseason, if_neg hseason, if_neg hyt, if_neg hyf]
    cases hs : scrape_schedule w
        (w.toDays ⟨fromDecDigits (g0.take 4), 9, 1⟩)
        (w.toDays
          ⟨fromDecDigits
              (((g0 :: rest).getLast (List.cons_ne_nil g0 rest)).take 4) + 1,
            7, 1⟩)
        true true with
    | error e => rfl
    | ok s =>
      show Except.ok
          (s.filter (fun g => (g0 :: rest).contains (pyDecDigits g.game_id)))
          = Except.ok
          (s.filter (fun g => games0.contains (pyDecDigits g.game_id)))
      rw [List.filter_congr (fun x _ => hcont (pyDecDigits x.game_id))]


/-- Witness for C3 at the single identifier `"2016020001"`. -/
theorem get_dates_range_and_filter_witness :
    [demoId].mergeSort lexLe = demoId :: [] ∧
    ((∀ x ∈ [demoId], lexLe demoId x = true) ∧
     (∀ x ∈ [demoId],
        lexLe x ((demoId :: []).getLast (List.cons_ne_nil demoId [])) =
          true) ∧
     get_dates demoShared [demoId] =
       (scrape_schedule demoShared
           (demoShared.toDays ⟨fromDecDigits (demoId.take 4), 9, 1⟩)
           (if ((demoId :: []).getLast (List.cons_ne_nil demoId [])).take 4 =
               demoShared.current_season
             then demoShared.toDays demoShared.today
             else demoShared.toDays
               ⟨fromDecDigits
                   (((demoId :: []).getLast
                       (List.cons_ne_nil demoId [])).take 4) + 1, 7, 1⟩)
           true true).map
         (fun sched => sched.filter
           (fun g => [demoId].contains (pyDecDigits g.game_id)))) :=
  ⟨List.perm_singleton.mp (List.mergeSort_perm [demoId] lexLe),
    get_dates_range_and_filter demoShared [demoId] demoId []
      (List.perm_singleton.mp (List.mergeSort_perm [demoId] lexLe))
      (by decide) (by decide)⟩
